import Mathlib

/-!
Verification of the BGV TAT report engine (`src/BGV.py`).

Dates are modelled as natural numbers counting calendar days since
0000-03-01 of the proleptic Gregorian calendar; `weekday` follows the
Python convention (Monday = 0, ..., Sunday = 6) and `dayOfMonth`
recovers the day-of-month component via the standard civil-calendar
decomposition, so `g + 1` is the day after `g` (Python `timedelta(days=1)`).
-/

namespace BGV

/-- Python `date.weekday()`: Monday = 0, ..., Sunday = 6.
Day number 719468 is 1970-01-01, a Thursday (weekday 3). -/
def weekday (g : Nat) : Nat := (g + 2) % 7

/-- Python `date.day`: the day-of-month (1..31) of day number `g`,
by the standard civil-from-days decomposition. -/
def dayOfMonth (g : Nat) : Nat :=
  let doe := g % 146097
  let yoe := (doe - doe / 1460 + doe / 36524 - doe / 146096) / 365
  let doy := doe - (365 * yoe + yoe / 4 - yoe / 100)
  let mp := (5 * doy + 2) / 153
  doy - (153 * mp + 2) / 5 + 1

/-- Day number of a calendar date `y-m-d` (days-from-civil). -/
def toDays (y m d : Nat) : Nat :=
  let y2 := if m ≤ 2 then y - 1 else y
  let era := y2 / 400
  let yoe := y2 % 400
  let mp := if 2 < m then m - 3 else m + 9
  let doy := (153 * mp + 2) / 5 + d - 1
  let doe := yoe * 365 + yoe / 4 - yoe / 100 + doy
  era * 146097 + doe

/-- The configured holiday list of `src/BGV.py`
(2025-01-26, 2025-08-15, 2025-10-02, 2025-12-25). -/
def public_holidays : List Nat :=
  [toDays 2025 1 26, toDays 2025 8 15, toDays 2025 10 2, toDays 2025 12 25]

/-- `is_working_day` from `src/BGV.py`: false on Sundays, on 2nd/4th
Saturdays (week-of-month `(day - 1) / 7 + 1`), and on configured holidays. -/
def is_working_day (date : Nat) : Bool :=
  if weekday date = 6 then false
  else if weekday date = 5 ∧
      ((dayOfMonth date - 1) / 7 + 1 = 2 ∨ (dayOfMonth date - 1) / 7 + 1 = 4) then false
  else if date ∈ public_holidays then false
  else true

/-- Bounded linear search for the first working day at or after `d`,
checking `fuel` candidate days; returns the day after the scanned range
when none is found (the bound `fuel = 7` is proved sufficient below). -/
def searchFrom (d : Nat) : Nat → Nat
  | 0 => d
  | fuel + 1 => if is_working_day d then d else searchFrom (d + 1) fuel

/-- The first working day strictly after `d`: one iteration of the
`while` loop of `add_working_days` in `src/BGV.py` up to the next hit. -/
def next_working_day (d : Nat) : Nat := searchFrom (d + 1) 7

/-- `add_working_days` from `src/BGV.py`: advance day by day from
`start_date`, counting working days, until `n` have been counted. -/
def add_working_days (start_date : Nat) : Nat → Nat
  | 0 => start_date
  | n + 1 => add_working_days (next_working_day start_date) n

/-- A case record: the three date fields read by the engine, each
possibly absent (`NaT`). -/
structure CaseRecord where
  reinitiatedOn : Option Nat
  receivedOn : Option Nat
  finalDispatchOn : Option Nat

/-- `calculate_due` from `src/BGV.py`. -/
def calculate_due (row : CaseRecord) : Option Nat :=
  match row.reinitiatedOn with
  | some d => some (add_working_days d 8)
  | none =>
    match row.receivedOn with
    | some d => some (add_working_days d 15)
    | none => none

/-- `calculate_remarks` from `src/BGV.py`: takes the dispatch date and
the computed due date, returns `(Remarks, Due Days)`. -/
def calculate_remarks (dispatch due : Option Nat) : String × String :=
  match dispatch, due with
  | some dp, some du =>
    if (dp : Int) - (du : Int) ≤ 0 then ("Within TAT", "")
    else ("Exceeded", toString ((dp : Int) - (du : Int)) ++ " days Deduction")
  | _, _ => ("Pending", "")

/-- A raw input cell before `pd.to_datetime(..., errors='coerce')`:
either a parseable date, a malformed value, or an empty cell. -/
inductive RawCell where
  | date (d : Nat)
  | malformed
  | empty

/-- `pd.to_datetime(..., errors='coerce')` on one cell: malformed and
empty cells coerce to `NaT` (absent). -/
def coerceCell : RawCell → Option Nat
  | .date d => some d
  | .malformed => none
  | .empty => none

/-- A raw input row: the three date columns as uploaded. -/
structure RawRecord where
  reinitiatedOn : RawCell
  receivedOn : RawCell
  finalDispatchOn : RawCell

/-- Column coercion of one row (the first loop of `process_report`). -/
def coerceRow (r : RawRecord) : CaseRecord :=
  { reinitiatedOn := coerceCell r.reinitiatedOn
    receivedOn := coerceCell r.receivedOn
    finalDispatchOn := coerceCell r.finalDispatchOn }

/-- One evaluated output row: the coerced record plus the derived
due date, `Remarks` and `Due Days` columns. -/
structure EvaluatedCase where
  record : CaseRecord
  dueDate : Option Nat
  remarks : String
  dueDays : String

/-- Independent evaluation of a single coerced record:
`calculate_due` then `calculate_remarks`. -/
def evaluateCase (r : CaseRecord) : EvaluatedCase :=
  let due := calculate_due r
  let rm := calculate_remarks r.finalDispatchOn due
  ⟨r, due, rm.1, rm.2⟩

/-- `process_report` from `src/BGV.py`: coerce the date columns, then
derive the due-date column, then derive the remarks columns. -/
def process_report (rows : List RawRecord) : List EvaluatedCase :=
  (((rows.map coerceRow).map (fun r => (r, calculate_due r))).map (fun rd =>
    ⟨rd.1, rd.2, (calculate_remarks rd.1.finalDispatchOn rd.2).1,
      (calculate_remarks rd.1.finalDispatchOn rd.2).2⟩))

/-! ### Calendar search lemmas -/

/-- The bounded search never moves backwards. -/
lemma searchFrom_ge : ∀ fuel d, d ≤ searchFrom d fuel := by
  intro fuel
  induction fuel with
  | zero => intro d; exact le_refl d
  | succ fuel ih =>
    intro d
    simp only [searchFrom]
    split
    · exact le_refl d
    · exact le_trans (Nat.le_succ d) (ih (d + 1))

/-- If a working day exists within the scanned range, the search
returns a working day. -/
lemma searchFrom_working : ∀ fuel d,
    (∃ k, k < fuel ∧ is_working_day (d + k) = true) →
    is_working_day (searchFrom d fuel) = true := by
  intro fuel
  induction fuel with
  | zero => intro d ⟨k, hk, _⟩; omega
  | succ fuel ih =>
    intro d ⟨k, hk, hw⟩
    simp only [searchFrom]
    split
    · assumption
    · rename_i hd
      apply ih
      rcases k with _ | k
      · simp at hw; exact absurd hw hd
      · exact ⟨k, by omega, by have : d + 1 + k = d + (k + 1) := by omega
                               rw [this]; exact hw⟩

/-- Every day skipped by the search is a non-working day. -/
lemma searchFrom_min : ∀ fuel d x, d ≤ x → x < searchFrom d fuel →
    is_working_day x = false := by
  intro fuel
  induction fuel with
  | zero => intro d x hdx hx; simp only [searchFrom] at hx; omega
  | succ fuel ih =>
    intro d x hdx hx
    simp only [searchFrom] at hx
    split at hx
    · omega
    · rename_i hd
      rcases Nat.eq_or_lt_of_le hdx with h | h
      · subst h; exact Bool.eq_false_iff.mpr hd
      · exact ih (d + 1) x h hx

/-- The search returns the least working day in range: it never
overshoots a working day. -/
lemma searchFrom_le (fuel d k : Nat)
    (hw : is_working_day (d + k) = true) : searchFrom d fuel ≤ d + k := by
  by_contra h
  have := searchFrom_min fuel d (d + k) (Nat.le_add_right d k) (by omega)
  rw [hw] at this
  exact Bool.noConfusion this

/-- No configured holiday falls on a Monday (they fall on a Sunday, a
Friday and two Thursdays). -/
lemma holiday_weekday_ne_zero : ∀ h ∈ public_holidays, weekday h ≠ 0 := by
  decide

/-- A Monday is always a working day: it is neither a Sunday, nor a
Saturday, nor one of the configured holidays. -/
lemma working_of_weekday_zero (x : Nat) (hw : weekday x = 0) :
    is_working_day x = true := by
  have hx : x ∉ public_holidays := fun hmem =>
    holiday_weekday_ne_zero x hmem hw
  simp [is_working_day, hw, hx]

/-- Any seven consecutive days contain a working day (the unique
Monday among them). -/
lemma exists_working_within_seven (d : Nat) :
    ∃ k, k < 7 ∧ is_working_day (d + 1 + k) = true := by
  refine ⟨(7 - (d + 3) % 7) % 7, Nat.mod_lt _ (by omega), ?_⟩
  apply working_of_weekday_zero
  simp only [weekday]
  omega

/-- The next working day is strictly in the future. -/
lemma next_working_day_gt (d : Nat) : d < next_working_day d :=
  lt_of_lt_of_le (Nat.lt_succ_self d) (searchFrom_ge 7 (d + 1))

/-- The next working day is a working day. -/
lemma next_working_day_working (d : Nat) :
    is_working_day (next_working_day d) = true :=
  searchFrom_working 7 (d + 1) (exists_working_within_seven d)

/-- The next working day is at most seven days ahead. -/
lemma next_working_day_le (d : Nat) : next_working_day d ≤ d + 7 := by
  obtain ⟨k, hk, hw⟩ := exists_working_within_seven d
  have := searchFrom_le 7 (d + 1) k hw
  simp only [next_working_day]
  omega

/-- Every day strictly between `d` and its next working day is
non-working. -/
lemma next_working_day_min (d x : Nat) (h1 : d < x)
    (h2 : x < next_working_day d) : is_working_day x = false :=
  searchFrom_min 7 (d + 1) x h1 h2

/-! ### Counting working days -/

/-- The number of working days `x` with `a < x ≤ b`. -/
def countWorkingDays (a b : Nat) : Nat :=
  ((Finset.Ioc a b).filter (fun d => is_working_day d = true)).card

lemma countWorkingDays_self (a : Nat) : countWorkingDays a a = 0 := by
  simp [countWorkingDays]

/-- Counting working days over `(a, c]` splits at any `a ≤ b ≤ c`. -/
lemma countWorkingDays_split (a b c : Nat) (hab : a ≤ b) (hbc : b ≤ c) :
    countWorkingDays a b + countWorkingDays b c = countWorkingDays a c := by
  simp only [countWorkingDays]
  rw [← Finset.card_union_of_disjoint, ← Finset.filter_union,
    Finset.Ioc_union_Ioc_eq_Ioc hab hbc]
  apply Finset.disjoint_filter_filter
  rw [Finset.disjoint_left]
  intro x hx hy
  simp only [Finset.mem_Ioc] at hx hy
  omega

/-- Exactly one working day lies in `(d, next_working_day d]`. -/
lemma countWorkingDays_next (d : Nat) :
    countWorkingDays d (next_working_day d) = 1 := by
  have : (Finset.Ioc d (next_working_day d)).filter
      (fun x => is_working_day x = true) = {next_working_day d} := by
    ext x
    simp only [Finset.mem_filter, Finset.mem_Ioc, Finset.mem_singleton]
    constructor
    · rintro ⟨⟨h1, h2⟩, hw⟩
      rcases Nat.eq_or_lt_of_le h2 with h | h
      · exact h
      · rw [next_working_day_min d x h1 h] at hw
        exact Bool.noConfusion hw
    · rintro rfl
      exact ⟨⟨next_working_day_gt d, le_refl _⟩, next_working_day_working d⟩
  rw [countWorkingDays, this, Finset.card_singleton]

/-! ### add_working_days lemmas -/

/-- `add_working_days` never moves backwards. -/
lemma add_working_days_ge : ∀ n start, start ≤ add_working_days start n := by
  intro n
  induction n with
  | zero => intro start; exact le_refl start
  | succ n ih =>
    intro start
    exact le_trans (le_of_lt (next_working_day_gt start))
      (ih (next_working_day start))

/-- For `n ≥ 1`, the result of `add_working_days` is a working day. -/
lemma add_working_days_working : ∀ n start,
    is_working_day (add_working_days start (n + 1)) = true := by
  intro n
  induction n with
  | zero => intro start; exact next_working_day_working start
  | succ n ih => intro start; exact ih (next_working_day start)

/-- The working days strictly after `start` up to and including the
result of `add_working_days start n` number exactly `n`. -/
lemma add_working_days_count : ∀ n start,
    countWorkingDays start (add_working_days start n) = n := by
  intro n
  induction n with
  | zero => intro start; exact countWorkingDays_self start
  | succ n ih =>
    intro start
    have h1 : start ≤ next_working_day start :=
      le_of_lt (next_working_day_gt start)
    have h2 : next_working_day start ≤
        add_working_days (next_working_day start) n :=
      add_working_days_ge n (next_working_day start)
    have := countWorkingDays_split start (next_working_day start)
      (add_working_days (next_working_day start) n) h1 h2
    show countWorkingDays start (add_working_days (next_working_day start) n)
      = n + 1
    rw [← this, countWorkingDays_next, ih (next_working_day start)]
    omega

/-- `add_working_days` advances at most seven calendar days per
working day counted. -/
lemma add_working_days_le : ∀ n start,
    add_working_days start n ≤ start + 7 * n := by
  intro n
  induction n with
  | zero => intro start; simp [add_working_days]
  | succ n ih =>
    intro start
    have h1 := next_working_day_le start
    have h2 := ih (next_working_day start)
    show add_working_days (next_working_day start) n ≤ start + 7 * (n + 1)
    omega

/-- The penalty string built for a late case is never empty. -/
lemma deduction_ne_empty (s : String) : s ++ " days Deduction" ≠ "" := by
  intro h
  have h1 := congrArg String.length h
  rw [String.length_append] at h1
  have h2 : (" days Deduction" : String).length = 15 := rfl
  have h3 : ("" : String).length = 0 := rfl
  rw [h2, h3] at h1
  omega

/-! ### Claim theorems -/

/-- C1: `calculate_due` returns `add_working_days reinitiatedOn 8` when
`reinitiatedOn` is defined (taking precedence even when `receivedOn` is
also defined), else `add_working_days receivedOn 15` when `receivedOn`
is defined, else nothing; the due date is defined iff at least one of
the two start dates is defined. -/
theorem C1_due_date_rule (row : CaseRecord) :
    calculate_due row =
      (match row.reinitiatedOn, row.receivedOn with
        | some r, _ => some (add_working_days r 8)
        | none, some s => some (add_working_days s 15)
        | none, none => none) ∧
    ((calculate_due row).isSome ↔
      (row.reinitiatedOn.isSome ∨ row.receivedOn.isSome)) := by
  obtain ⟨ri, rc, fd⟩ := row
  cases ri <;> cases rc <;> simp [calculate_due]

/-- C2: with both dispatch and due date defined, `calculate_remarks`
branches on the signed calendar-day difference: zero or negative gives
the on-time label with an empty penalty, positive gives `Exceeded` with
penalty `"{diff} days Deduction"`; the penalty is non-empty iff the
status is `Exceeded`. -/
theorem C2_diff_classification (dp du : Nat) :
    calculate_remarks (some dp) (some du) =
      (if (dp : Int) - (du : Int) ≤ 0 then ("Within TAT", "")
       else ("Exceeded", toString ((dp : Int) - (du : Int)) ++ " days Deduction")) ∧
    ((calculate_remarks (some dp) (some du)).2 ≠ "" ↔
      (calculate_remarks (some dp) (some du)).1 = "Exceeded") := by
  refine ⟨rfl, ?_⟩
  simp only [calculate_remarks]
  split
  · constructor
    · intro h; exact absurd rfl h
    · intro h
      exact absurd h (show ¬(("Within TAT" : String) = "Exceeded") by decide)
  · constructor
    · intro _; rfl
    · intro _; exact deduction_ne_empty _

/-- C3: `is_working_day` rejects exactly the Sundays, the Saturdays
whose week-of-month `(day - 1) / 7 + 1` is 2 or 4, and the configured
holidays; every other day (in particular 1st/3rd/5th Saturdays outside
the holiday list) is a working day. -/
theorem C3_working_day_rule (d : Nat) :
    is_working_day d = false ↔
      (weekday d = 6 ∨
        (weekday d = 5 ∧
          ((dayOfMonth d - 1) / 7 + 1 = 2 ∨ (dayOfMonth d - 1) / 7 + 1 = 4)) ∨
        d ∈ public_holidays) := by
  simp only [is_working_day]
  split_ifs with h1 h2 h3
  · exact iff_of_true rfl (Or.inl h1)
  · exact iff_of_true rfl (Or.inr (Or.inl h2))
  · exact iff_of_true rfl (Or.inr (Or.inr h3))
  · refine iff_of_false (by decide) ?_
    rintro (h | h | h)
    · exact h1 h
    · exact h2 h
    · exact h3 h

/-- C4 fails as stated at `n = 0`: 2025-01-05 is a Sunday, and
`add_working_days` applied to it with `n = 0` returns it unchanged, so
the result is not a working day. -/
theorem C4_zero_counterexample :
    is_working_day (add_working_days (toDays 2025 1 5) 0) = false := by
  decide

/-- C4 (amended): for `n ≥ 1` the result of `add_working_days` is a
working day, and for every `n ≥ 0` exactly `n` working days lie
strictly after `start` up to and including the result. -/
theorem C4_working_day_count (start n : Nat) :
    (1 ≤ n → is_working_day (add_working_days start n) = true) ∧
    countWorkingDays start (add_working_days start n) = n := by
  constructor
  · intro hn
    obtain ⟨m, rfl⟩ : ∃ m, n = m + 1 := ⟨n - 1, by omega⟩
    exact add_working_days_working m start
  · exact add_working_days_count n start

/-- C4 witness: scenario A, 2025-03-03 advanced by 8 working days. -/
theorem C4_working_day_count_witness :
    is_working_day (add_working_days (toDays 2025 3 3) 8) = true ∧
    countWorkingDays (toDays 2025 3 3) (add_working_days (toDays 2025 3 3) 8) = 8 :=
  ⟨(C4_working_day_count (toDays 2025 3 3) 8).1 (by decide),
   (C4_working_day_count (toDays 2025 3 3) 8).2⟩

/-- C5: `calculate_remarks` yields `("Pending", "")` exactly when the
dispatch date or the due date is absent; in particular an absent
dispatch date is Pending whatever the due date is. -/
theorem C5_pending_iff (dispatch due : Option Nat) :
    calculate_remarks dispatch due = ("Pending", "") ↔
      (dispatch = none ∨ due = none) := by
  cases dispatch with
  | none => simp [calculate_remarks]
  | some dp =>
    cases due with
    | none => simp [calculate_remarks]
    | some du =>
      simp only [calculate_remarks]
      constructor
      · intro h
        split at h
        · exact absurd (congrArg Prod.fst h)
            (show ¬(("Within TAT" : String) = "Pending") by decide)
        · exact absurd (congrArg Prod.fst h)
            (show ¬(("Exceeded" : String) = "Pending") by decide)
      · rintro (h | h) <;> exact Option.noConfusion h

/-- C6: `process_report` evaluates each row independently in order,
producing exactly one output row per input row, and coercion turns
malformed or empty date cells into absent values rather than failing. -/
theorem C6_batch_shape (rows : List RawRecord) :
    process_report rows = rows.map (fun r => evaluateCase (coerceRow r)) ∧
    (process_report rows).length = rows.length ∧
    coerceCell RawCell.malformed = none ∧
    coerceCell RawCell.empty = none := by
  refine ⟨?_, ?_, rfl, rfl⟩
  · rw [process_report, List.map_map, List.map_map]
    rfl
  · rw [process_report]
    simp [List.length_map]

/-- C7: the status produced by `calculate_remarks` is always one of the
three literal labels used by the styling layer. -/
theorem C7_status_labels (dispatch due : Option Nat) :
    (calculate_remarks dispatch due).1 = "Pending" ∨
    (calculate_remarks dispatch due).1 = "Within TAT" ∨
    (calculate_remarks dispatch due).1 = "Exceeded" := by
  cases dispatch with
  | none => left; rfl
  | some dp =>
    cases due with
    | none => left; rfl
    | some du =>
      simp only [calculate_remarks]
      split
      · right; left; rfl
      · right; right; rfl

/-- C8: advancing by zero working days returns the start date
unchanged, for every start date (working day or not). -/
theorem C8_zero_identity (start : Nat) : add_working_days start 0 = start := rfl

/-- C9: `add_working_days` terminates for every start and `n ≥ 0`: each
single-day search finds a working day within the next seven days (the
four holidays and the weekend rules never cover a whole week), so the
result is reached within `7 * n` calendar days. -/
theorem C9_search_terminates (start n : Nat) :
    add_working_days start n ≤ start + 7 * n ∧
    (∀ d : Nat, d < next_working_day d ∧ next_working_day d ≤ d + 7 ∧
      is_working_day (next_working_day d) = true) :=
  ⟨add_working_days_le n start, fun d =>
    ⟨next_working_day_gt d, next_working_day_le d, next_working_day_working d⟩⟩

/-- C10: advancing by working days composes additively:
`m + n` working days equals `m` working days followed by `n`. -/
theorem C10_additive (start m n : Nat) :
    add_working_days start (m + n) =
      add_working_days (add_working_days start m) n := by
  induction m generalizing start with
  | zero =>
    rw [Nat.zero_add]
    rfl
  | succ m ih =>
    have h : m + 1 + n = (m + n) + 1 := by omega
    rw [h]
    show add_working_days (next_working_day start) (m + n) = _
    rw [ih (next_working_day start)]
    rfl

end BGV
